import Mathlib

/-!
# Verification of the pipemaker chain-composition and wildcard-block engine

Shallow embedding of `src/index.js` (the `Pipemaker` class).  Stages are
continuation-passing JavaScript functions `(str, options, next)`; since every
code path of the engine invokes each continuation exactly once, a stage is
embedded as a pure function from the input string and the options object to a
single outcome (`StageOut`): a string result, a function-shaped result (which
the runner forces by applying it to the options), or an error passed to the
callback.  JavaScript objects used as string-keyed maps (`this.mappings`,
`this.pipelines`) are embedded as association lists with lookup / set /
delete helpers.  The mutable `lines` array of `compileBlock` is threaded
explicitly; an entry holding JavaScript `undefined` is modelled as `none`.
-/

namespace Pipemaker

/-- Options objects are opaque string-keyed records passed through to stages;
`[]` models the empty object literal `{}`. -/
abbrev Opts := List (String × String)

/-- Outcome of one stage invocation, as observed through its callback
`function(err, res)` in `runTask`: an error (`err` truthy), a plain string
result, or a function-shaped result (JS `"function" === typeof(res)`). -/
inductive StageOut where
  | str (s : String)
  | fn (f : Opts → String)
  | err (e : String)
deriving Inhabited

/-- A stage: `task.call(null, str, options, callback)`. -/
abbrev Stage := String → Opts → StageOut

/-- A stage whose callback output is always a plain string. -/
def liftStage (f : String → Opts → String) : Stage := fun s o => .str (f s o)

/-- Embedding of `runTask` (src/index.js:281-293).  The JS function
destructively `shift`s the `tasks` array; the first component of the result
is the final state of that array (what remains after the shifts), the second
is the value delivered to `next`: `next(err)` or `next(null, str)`.
A function-shaped stage result is forced first: `res = res.call(null, options)`. -/
def runTask : List Stage → String → Opts → List Stage × Except String String
  | [], s, _ => ([], .ok s)
  | task :: tasks, s, o =>
      match task s o with
      | .err e => (tasks, .error e)
      | .str res => runTask tasks res o
      | .fn f => runTask tasks (f o) o

/-- Instrumented form of `runTask` that also records, in invocation order, the
input string handed to each stage (`task.call(null, str, ...)`). Its second
component agrees with `runTask` (lemma `runTrace_snd`). -/
def runTrace : List Stage → String → Opts → List String × Except String String
  | [], s, _ => ([], .ok s)
  | task :: tasks, s, o =>
      match task s o with
      | .err e => ([s], .error e)
      | .str res =>
          let r := runTrace tasks res o
          (s :: r.1, r.2)
      | .fn f =>
          let r := runTrace tasks (f o) o
          (s :: r.1, r.2)

/-- The value threaded through a run of string-returning stages. -/
def threadVal (fs : List (String → Opts → String)) (s : String) (o : Opts) : String :=
  fs.foldl (fun a f => f a o) s

/-- Accumulator-based splitter: `acc` holds the current piece reversed. -/
def splitByAux (p : Char → Bool) : List Char → List Char → List String
  | [], acc => [String.mk acc.reverse]
  | c :: cs, acc =>
      if p c then String.mk acc.reverse :: splitByAux p cs []
      else splitByAux p cs (c :: acc)

/-- JavaScript `String.prototype.split` against a single-character separator
or character class: cut at every matching character, keeping empty pieces
(`"".split` yields `[""]`, `"a>".split(">")` yields `["a", ""]`). -/
def splitBy (p : Char → Bool) (s : String) : List String :=
  splitByAux p s.data []

/-- Embedding of `chain.split(">")`. -/
def splitGt (s : String) : List String := splitBy (· == '>') s

--
--  ChainCompiler: `createPipeline` (src/index.js:325-360)
--

/-- The cursor of the `reduce` accumulator in `createPipeline`
(`agg.which`, initially `"pre"`, flipped to `"post"` by the `@` token). -/
inductive Which where
  | pre
  | post
deriving DecidableEq

/-- The `reduce` accumulator `{ pre: [], post: [], which: "pre" }`. -/
structure ChainAgg where
  pre : List Stage
  post : List Stage
  which : Which

/-- One step of the `reduce` in `createPipeline`: `@` flips the cursor,
any other token is resolved to a stage (`compilers(pipeline, {dir, fetch})`,
modelled by `resolve`) and pushed onto the list the cursor points to. -/
def chainStep (resolve : String → Stage) (agg : ChainAgg) (token : String) : ChainAgg :=
  if token = "@" then { agg with which := .post }
  else
    match agg.which with
    | .pre => { agg with pre := agg.pre ++ [resolve token] }
    | .post => { agg with post := agg.post ++ [resolve token] }

/-- Embedding of `chain.split(">").reduce(..., { pre: [], post: [], which: "pre" })`. -/
def parseChain (resolve : String → Stage) (chain : String) : ChainAgg :=
  (splitGt chain).foldl (chainStep resolve) ⟨[], [], .pre⟩

/-- The state captured by the closure returned from `createPipeline`. -/
structure PipeClosure where
  pre : List Stage
  post : List Stage

/-- Final value delivered by an invocation of a compiled pipeline:
plain text (no post stage), a zero-argument thunk wrapping a plain-string
post-stage result (`function() { return results }`), or a function-shaped
post-stage result passed through unchanged. -/
inductive FinalResult where
  | text (s : String)
  | thunk (f : Unit → String)
  | fnPass (f : Opts → String)

/-- Whether a final value is the zero-argument thunk wrapper. -/
def FinalResult.isThunk : FinalResult → Bool
  | .thunk _ => true
  | _ => false

/-- Embedding of `createPipeline` (src/index.js:325-360): parse the chain,
then `throw new Error(...)` — a synchronous, construction-time failure,
modelled as `Except.error` — when more than one stage follows `@`.
On success the closure state (`pipelines.pre` / `pipelines.post`) is returned;
no stage has been applied to any input at this point. -/
def createPipeline (resolve : String → Stage) (chain : String) :
    Except String PipeClosure :=
  if (parseChain resolve chain).post.length > 1 then
    .error "Only one pipeline can be specified after forcing to text"
  else .ok ⟨(parseChain resolve chain).pre, (parseChain resolve chain).post⟩

/-- Embedding of the closure returned by `createPipeline`
(src/index.js:340-358).  `runTask` is handed `pipelines.pre.slice(0)` — a
fresh copy, so the leftover state of the consumed array (first component of
`runTask`) is simply dropped and the closure's own lists are untouched.
The single post stage is invoked with the forced text and a fresh empty
options object `{}`; a plain-string result is wrapped in a zero-argument
thunk, a function-shaped result is passed through unchanged. -/
def invokePipe (p : PipeClosure) (s : String) (o : Opts) :
    Except String FinalResult :=
  match (runTask p.pre s o).2 with
  | .error e => .error e
  | .ok text =>
      match p.post with
      | [] => .ok (.text text)
      | post0 :: _ =>
          match post0 text [] with
          | .err e => .error e
          | .str results => .ok (.thunk (fun _ => results))
          | .fn f => .ok (.fnPass f)

/-- A pipeline invocation together with the closure state it leaves behind:
because `runTask` consumes `pipelines.pre.slice(0)` (a copy), the captured
stage lists are returned unchanged. -/
def invokeStateful (p : PipeClosure) (s : String) (o : Opts) :
    Except String FinalResult × PipeClosure :=
  (invokePipe p s o, p)

--
--  PipelineRegistry: the Pipemaker instance state (src/index.js:61-78,
--  376-434).  JS objects used as string-keyed maps become association
--  lists; `setKey`/`delKey`/`lookupKey` model property write / `delete` /
--  read.
--

/-- Association-list read: `obj[key]`, `none` for an absent property. -/
def lookupKey {β : Type} : List (String × β) → String → Option β
  | [], _ => none
  | (k', v) :: rest, k => if k' = k then some v else lookupKey rest k

/-- Association-list write: `obj[key] = v` (overwrites, else appends). -/
def setKey {β : Type} : List (String × β) → String → β → List (String × β)
  | [], k, v => [(k, v)]
  | (k', v') :: rest, k, v =>
      if k' = k then (k, v) :: rest else (k', v') :: setKey rest k v

/-- Association-list delete: `delete obj[key]`. -/
def delKey {β : Type} : List (String × β) → String → List (String × β)
  | [], _ => []
  | (k', v) :: rest, k =>
      if k' = k then delKey rest k else (k', v) :: delKey rest k

/-- A compiled pipeline as stored in `this.pipelines`.  The `id` field is
instrumentation for JavaScript closure identity: every `createPipeline` call
returns a distinct closure object, modelled by tagging each successful
compile with a fresh serial number drawn from the registry. -/
structure CachedPipe where
  id : Nat
  pipe : PipeClosure

/-- The Pipemaker instance state: `this.mappings` (extension → chain name,
which by the constructor's `assign(core, options.mappings)` is the very same
object as the module-level `core`), `this.pipelines` (chain name → compiled
pipeline), and the fresh-closure counter used by the identity
instrumentation. -/
structure Registry where
  mappings : List (String × String)
  pipelines : List (String × CachedPipe)
  nextId : Nat

/-- Embedding of `chain = chain || compilers.defaultCompilerForExtension(ext)`: JS `||`
takes the default when `chain` is `undefined` or the empty string. -/
def chainOrDefault (dflt : String → String) (ext : String) : Option String → String
  | none => dflt ext
  | some c => if c = "" then dflt ext else c

/-- Embedding of `getPipeline` (src/index.js:376-383): return the cached
pipeline for `chain`, compiling and caching it on first access.  A compile
failure (`createPipeline` throw) propagates and leaves the registry
unchanged. -/
def getPipeline (resolve : String → Stage) (chain : String) (r : Registry) :
    Except String (CachedPipe × Registry) :=
  match lookupKey r.pipelines chain with
  | some p => .ok (p, r)
  | none =>
      match createPipeline resolve chain with
      | .error e => .error e
      | .ok pc =>
          .ok (⟨r.nextId, pc⟩,
            { r with nextId := r.nextId + 1,
                     pipelines := setKey r.pipelines chain ⟨r.nextId, pc⟩ })

/-- Embedding of `addPipeline` (src/index.js:397-413): a `"*"` chain is only
recorded in the mappings; otherwise the chain (or the extension's default)
is stored in `mappings[ext]`, and `pipelines[chain] = this.getPipeline(chain)`
compiles-or-fetches the cached pipeline. -/
def addPipeline (resolve : String → Stage) (dflt : String → String)
    (ext : String) (chainArg : Option String) (r : Registry) :
    Except String (Option CachedPipe × Registry) :=
  if chainArg = some "*" then
    .ok (none, { r with mappings := setKey r.mappings ext "*" })
  else
    match getPipeline resolve (chainOrDefault dflt ext chainArg)
        { r with mappings := setKey r.mappings ext (chainOrDefault dflt ext chainArg) } with
    | .error e => .error e
    | .ok (p, r2) =>
        .ok (some p,
          { r2 with pipelines := setKey r2.pipelines (chainOrDefault dflt ext chainArg) p })

/-- Embedding of `hasPipeline` (src/index.js:447-451): `!!this.mappings[ext]`
— truthy iff the property exists and is a non-empty string. -/
def hasPipeline (r : Registry) (ext : String) : Bool :=
  match lookupKey r.mappings ext with
  | some v => !(v == "")
  | none => false

/-- Embedding of `removePipeline` (src/index.js:425-434):
`delete this.pipelines[this.mappings[ext]]`, then
`delete this.mappings[ext]`, then `if (core[ext]) this.addPipeline(ext, core[ext])`.
Because the constructor's `this.mappings = assign(core, options.mappings)`
made `this.mappings` the same object as `core`, the restore check reads the
entry the previous line just deleted, so it can never fire. -/
def removePipeline (resolve : String → Stage) (dflt : String → String)
    (ext : String) (r : Registry) : Except String Registry :=
  let r1 : Registry :=
    { r with pipelines :=
        match lookupKey r.mappings ext with
        | some chain => delKey r.pipelines chain
        | none => r.pipelines }
  let r2 : Registry := { r1 with mappings := delKey r1.mappings ext }
  match lookupKey r2.mappings ext with
  | some v =>
      if v = "" then .ok r2
      else
        match addPipeline resolve dflt ext (some v) r2 with
        | .error e => .error e
        | .ok (_, r3) => .ok r3
  | none => .ok r2

/-- The module-level `core` defaults (src/index.js:38-42). -/
def coreMappings : List (String × String) :=
  [("js", "javascript"), ("html", "html"), ("css", "css")]

/-- Embedding of the constructor (src/index.js:61-78) for a fresh instance
with no user mappings: `this.mappings = assign(core, options.mappings)`
(the `core` table itself), `this.pipelines = {}`, then
`for (var ext in this.mappings) this.addPipeline(ext, this.mappings[ext])`. -/
def initPipemaker (resolve : String → Stage) (dflt : String → String) :
    Except String Registry :=
  coreMappings.foldlM
    (fun r kv => do
      let x ← addPipeline resolve dflt kv.1 (some kv.2) r
      pure x.2)
    ⟨coreMappings, [], 0⟩

/-- The identity stage, used for concrete evaluations. -/
def idStage : Stage := liftStage (fun s _ => s)

/-- A trivially succeeding stage resolver used for concrete evaluations. -/
def resolve0 : String → Stage := fun _ => idStage

/-- A default-chain resolver mapping each extension to itself. -/
def dflt0 : String → String := fun e => e

/-- Count of non-`@` tokens strictly after the first `@`, on a token list
where the cursor already points at `post`. -/
def countNonAt : List String → Nat
  | [] => 0
  | t :: ts => (if t = "@" then 0 else 1) + countNonAt ts

/-- Count of stage tokens after the force-to-text sentinel `@` in a token
list (non-`@` tokens strictly after the first `@`). -/
def postTokens : List String → Nat
  | [] => 0
  | t :: ts => if t = "@" then countNonAt ts else postTokens ts

--
--  WildcardBlockParser: `compileWildcard` / `compileBlock` / `parseCompiler`
--  / `pad` (src/index.js:153-277)
--

/-- The JavaScript regex character class `\s`. -/
def isJsSpace (c : Char) : Bool :=
  c = ' ' || c = '\t' || c = '\n' || c = '\r' || c = '\x0b' || c = '\x0c'
  || c = ' ' || c = ' '
  || (0x2000 ≤ c.val && c.val ≤ 0x200A)
  || c = ' ' || c = ' ' || c = ' ' || c = ' '
  || c = '　' || c = '﻿'

/-- A character matched by the token class of `COMPILER_RE`: anything but
`\s`, a double quote, or a single quote (code point 39). -/
def isTokChar (c : Char) : Bool :=
  !(isJsSpace c) && c.val != 39 && c != '"'

/-- Embedding of `str.match(/^(\s*)/)[0].length`: the length of the leading `\s` run (on a
whole string this may span line breaks, since `\s` matches them). -/
def leadingWsLen (s : String) : Nat :=
  (s.data.takeWhile isJsSpace).length

/-- A run of `n` spaces: `new Array(1 + n).join(" ")`. -/
def mkSpaces (n : Nat) : String :=
  String.mk (List.replicate n ' ')

/-- Embedding of `str.split(/[\n\r]/)` and `str.split(/[\r\n]/)`. -/
def splitLines (s : String) : List String :=
  splitBy (fun c => c == '\n' || c == '\r') s

/-- Embedding of `Array.prototype.join("\n")`; the caller maps a JS `undefined` entry to
`""` beforehand, as `join` stringifies `undefined` to the empty string. -/
def joinNl : List String → String
  | [] => ""
  | [l] => l
  | l :: ls => l ++ "\n" ++ joinNl ls

/-- Embedding of `pad` (src/index.js:263-277): if the leading `\s` run of
the whole string is shorter than `minIndent`, prepend the difference in
spaces to every line (split on CR/LF, rejoined with LF); otherwise return
the string unchanged. -/
def pad (str : String) (minIndent : Nat) : String :=
  let p := leadingWsLen str
  if p < minIndent then
    joinNl ((splitLines str).map (fun l => mkSpaces (minIndent - p) ++ l))
  else str

/-- One attempt of `COMPILER_RE = /(\s*)['"]?>>\s?([^\s'"]+)/` anchored at
the head of `cs`, returning the two capture groups (indent, extension).
Backtracking is resolved: the greedy `\s*` cannot give back characters
(whatever it releases is whitespace, matching neither `['"]` nor `>`), an
unhelpful optional quote cannot be skipped (the quote itself is not `>`),
and the optional `\s?` after `>>` is taken exactly when a token character
follows it. -/
def matchAt (cs : List Char) : Option (String × String) :=
  let ws := cs.takeWhile isJsSpace
  let rest1 := cs.dropWhile isJsSpace
  let rest2 := match rest1 with
    | c :: r => if c.val = 39 || c = '"' then r else rest1
    | [] => rest1
  match rest2 with
  | '>' :: '>' :: rest3 =>
      match rest3 with
      | c :: cs' =>
          if isTokChar c then
            some (String.mk ws, String.mk ((c :: cs').takeWhile isTokChar))
          else if isJsSpace c then
            match cs' with
            | d :: _ =>
                if isTokChar d then
                  some (String.mk ws, String.mk (cs'.takeWhile isTokChar))
                else none
            | [] => none
          else none
      | [] => none
  | _ => none

/-- The regex engine's scan: try `COMPILER_RE` at successive start
positions, leftmost match wins. -/
def scanMarker : List Char → Option (String × String)
  | [] => none
  | c :: cs =>
      match matchAt (c :: cs) with
      | some r => some r
      | none => scanMarker cs

/-- Embedding of `line.match(COMPILER_RE)`, reduced to the two capture groups used by
`parseCompiler` (src/index.js:240-250): the indent group and the extension
group; `none` models a `null` match (on which `match[1]` would throw). -/
def findMarker (line : String) : Option (String × String) :=
  scanMarker line.data

/-- Result of one `compileBlock` activation, as passed to its callback
`fn(err, compiled, numberOfLinesProcessed)`. -/
inductive BlockOut where
  | ok (compiled : String) (count : Nat)
  | err (e : String)
deriving DecidableEq

/-- Control state of a `compileBlock` activation: `start` is the entry
(parse the marker line), `loop` is the inner `nextLine` scanner with the
closure state `(start, block.ext, base, block.lines, lineNo)`. -/
inductive CbMode where
  | start (lineNo : Nat)
  | loop (start : Nat) (ext : String) (base : Nat)
      (acc : List (Option String)) (lineNo : Nat)

/-- The `complete` closure of `compileBlock` (src/index.js:183-189):
`self.compile(block.ext, block.lines.join("\n"), Object.assign({}, options),
cb)` — the registry dispatch together with the cloned options object is
abstracted as the pure `compileExt`; `undefined` member lines stringify to
`""` in `join` — then the compiled result is padded to the block's base
indent and delivered with the consumed-line count `lineNo - start`. -/
def completeFn (compileExt : String → String → Except String String)
    (ext : String) (base : Nat) (acc : List (Option String))
    (lineNo start : Nat) : BlockOut :=
  match compileExt ext (joinNl (acc.map (fun x => x.getD ""))) with
  | .error e => .err e
  | .ok compiled => .ok (pad compiled base) (lineNo - start)

/-- Embedding of `lines.splice(idx, n)` restricted to deletion: drop `n` entries
starting at `idx`. -/
def spliceRemove {α : Type} (l : List α) (idx n : Nat) : List α :=
  l.take idx ++ l.drop (idx + n)

/-- Embedding of `compileBlock` (src/index.js:172-228), fuel-indexed.  The
mutable `lines` array is threaded through every call (an entry holding
JavaScript `undefined` is `none`); the result is the pair delivered to the
activation's callback together with the final array, or `none` when fuel
runs out or the code would throw (`parseCompiler` on a non-marker or
missing line).  The four `nextLine` outcomes are, in source order: end of
input; outdent (`space < base`); a nested marker — strictly deeper opens a
child block whose callback *ignores* `err` (on a child error `compiled` and
`count` are `undefined`: the marker line is overwritten with `undefined`,
`splice(lineNo+1, NaN)` removes nothing, `undefined` is pushed onto the
member lines, and scanning continues), while an equal-indent marker runs
`complete` whose output is discarded into the dead local `out` (but whose
error is delivered) before scanning continues; otherwise the raw line is
pushed onto the member lines. -/
def cbRun (compileExt : String → String → Except String String) :
    Nat → List (Option String) → CbMode → Option (BlockOut × List (Option String))
  | 0, _, _ => none
  | fuel + 1, lines, .start lineNo0 =>
      match lines.get? lineNo0 with
      | none => none
      | some none => none
      | some (some l0) =>
          match findMarker l0 with
          | none => none
          | some (indent, ext) =>
              cbRun compileExt fuel lines
                (.loop lineNo0 ext indent.length [] lineNo0)
  | fuel + 1, lines, .loop start ext base acc lineNo =>
      let ln := lineNo + 1
      match (lines.get? ln).bind id with
      | none => some (completeFn compileExt ext base acc ln start, lines)
      | some line =>
          let space := leadingWsLen line
          if space < base then
            some (completeFn compileExt ext base acc ln start, lines)
          else if (findMarker line).isSome then
            if space > base then
              match cbRun compileExt fuel lines (.start ln) with
              | none => none
              | some (.ok compiled count, lines1) =>
                  cbRun compileExt fuel
                    (spliceRemove (lines1.set ln (some compiled)) (ln + 1) (count - 1))
                    (.loop start ext base (acc ++ [some compiled]) ln)
              | some (.err _, lines1) =>
                  cbRun compileExt fuel (lines1.set ln none)
                    (.loop start ext base (acc ++ [none]) ln)
            else
              match completeFn compileExt ext base acc ln start with
              | .err e => some (.err e, lines)
              | .ok _ _ =>
                  cbRun compileExt fuel lines (.loop start ext base acc ln)
          else
            cbRun compileExt fuel lines (.loop start ext base (acc ++ [some line]) ln)

/-- Embedding of `compileWildcard` (src/index.js:153-158): split the source
on CR/LF and compile the block starting at line 0. -/
def compileWildcard (compileExt : String → String → Except String String)
    (fuel : Nat) (str : String) : Option (BlockOut × List (Option String)) :=
  cbRun compileExt fuel ((splitLines str).map some) (.start 0)

/-- Block-compile collaborator for the C4 evaluation: extension `"bad"`
fails, every other extension compiles to the identity. -/
def ceC4 : String → String → Except String String :=
  fun ext s => if ext = "bad" then .error "boom" else .ok s

/-- Block-compile collaborator for the C5 evaluation: extension `"inner"`
compiles to a two-line result whose second line is flush left, every other
extension compiles to the identity. -/
def ceC5 : String → String → Except String String :=
  fun ext s => if ext = "inner" then .ok "    a\nb" else .ok s

end Pipemaker

namespace Pipemaker

theorem runTrace_snd (ts : List Stage) (s : String) (o : Opts) :
    (runTrace ts s o).2 = (runTask ts s o).2 := by
  induction ts generalizing s with
  | nil => rfl
  | cons t ts ih =>
      simp only [runTrace, runTask]
      cases t s o with
      | err e => rfl
      | str res => simpa using ih res
      | fn f => simpa using ih (f o)

/-- C1. For every ordered list of string-returning stage functions, the
runner invokes the stages strictly in list order: the trace of inputs handed
to successive stages is the prefix-scan of outputs (first stage gets the
original input, each later stage gets the immediately preceding stage's
callback output), the final continuation receives the fold of the stages, and
for the empty stage list the runner delivers the input string unchanged. -/
theorem runTask_invokes_in_order :
    (∀ (s : String) (o : Opts), runTask [] s o = ([], .ok s)) ∧
    (∀ (fs : List (String → Opts → String)) (s : String) (o : Opts),
      (runTrace (fs.map liftStage) s o).1
          = (List.scanl (fun a f => f a o) s fs).take fs.length ∧
      (runTask (fs.map liftStage) s o).2
          = .ok (fs.foldl (fun a f => f a o) s)) := by
  refine ⟨fun s o => rfl, fun fs => ?_⟩
  induction fs with
  | nil => intro s o; exact ⟨rfl, rfl⟩
  | cons f fs ih =>
      intro s o
      refine ⟨?_, ?_⟩
      · simp only [List.map_cons, runTrace, liftStage, List.scanl_cons,
          List.length_cons, List.take_succ_cons]
        exact congrArg (s :: ·) (ih (f s o) o).1
      · simpa only [List.map_cons, runTask, liftStage, List.foldl_cons]
          using (ih (f s o) o).2

/-- C3. If some stage passes an error to its continuation, no later stage
is invoked (the trace stops at the failing stage), the top-level continuation
receives exactly that error, and no output value accompanies it.  The input
reaching the failing stage is the fold of the string-valued stages before it. -/
theorem runTask_first_error_aborts
    (pre : List (String → Opts → String)) (bad : Stage) (post : List Stage)
    (s : String) (o : Opts) (e : String)
    (hbad : bad (threadVal pre s o) o = .err e) :
    runTrace (pre.map liftStage ++ bad :: post) s o
      = (List.scanl (fun a f => f a o) s pre, .error e) := by
  induction pre generalizing s with
  | nil =>
      simp only [threadVal, List.foldl_nil] at hbad
      simp only [List.map_nil, List.nil_append, runTrace, hbad, List.scanl_nil]
  | cons f fs ih =>
      simp only [threadVal, List.foldl_cons] at hbad
      have h2 := ih (f s o) hbad
      simp only [List.map_cons, List.cons_append, runTrace, liftStage,
        List.append_eq, h2, List.scanl_cons, List.nil_append]

theorem runTask_first_error_aborts_witness :
    (fun _ _ => StageOut.err "boom" : Stage)
        (threadVal [fun s _ => s ++ "1"] "x" []) [] = .err "boom" ∧
    runTrace
        ([fun s _ => s ++ "1"].map liftStage
          ++ (fun _ _ => StageOut.err "boom") :: [liftStage (fun s _ => s)])
        "x" []
      = (["x", "x1"], .error "boom") :=
  ⟨rfl, runTask_first_error_aborts [fun s _ => s ++ "1"]
      (fun _ _ => StageOut.err "boom") [liftStage (fun s _ => s)] "x" [] "boom" rfl⟩

--
--  ChainCompiler lemmas and claims
--

theorem foldl_chainStep_post_length (resolve : String → Stage) :
    ∀ (toks : List String) (agg : ChainAgg),
      ((toks.foldl (chainStep resolve) agg).post.length)
        = agg.post.length
          + (match agg.which with
             | .pre => postTokens toks
             | .post => countNonAt toks) := by
  intro toks
  induction toks with
  | nil => intro agg; cases agg.which <;> simp [postTokens, countNonAt]
  | cons t ts ih =>
      intro agg
      by_cases ht : t = "@"
      · subst ht
        simp only [List.foldl_cons, chainStep, if_pos rfl]
        rw [ih]
        cases hw : agg.which <;> simp [postTokens, countNonAt]
      · cases hw : agg.which
        · simp only [List.foldl_cons, chainStep, if_neg ht, hw]
          rw [ih]
          simp [postTokens, ht]
        · simp only [List.foldl_cons, chainStep, if_neg ht, hw]
          rw [ih]
          simp [countNonAt, ht]
          omega

/-- The parsed `post` list has exactly as many stages as there are non-`@`
tokens after the first `@` of the chain specification. -/
theorem parseChain_post_length (resolve : String → Stage) (chain : String) :
    (parseChain resolve chain).post.length = postTokens (splitGt chain) := by
  unfold parseChain
  rw [foldl_chainStep_post_length]
  simp

/-- C2. A chain specification with more than one stage token after the
force-to-text sentinel `@` fails at construction time (`createPipeline`
throws synchronously, before any stage executes and not through the
asynchronous callback channel — construction yields no pipeline at all);
with exactly one post stage, construction succeeds, and for the example
`"a>@>b"` the returned pipeline runs the pre stage `a`, forces to text, and
runs `b` as the sole post stage on that text (with a fresh empty options
object), wrapping its string output in a thunk. -/
theorem createPipeline_post_validation (resolve : String → Stage) :
    (∀ chain : String, 1 < postTokens (splitGt chain) →
      createPipeline resolve chain
        = .error "Only one pipeline can be specified after forcing to text") ∧
    (∀ chain : String, postTokens (splitGt chain) = 1 →
      ∃ p : PipeClosure, createPipeline resolve chain = .ok p
        ∧ p.post.length = 1) ∧
    (∀ (f g : String → Opts → String) (s : String) (o : Opts),
      resolve "a" = liftStage f → resolve "b" = liftStage g →
      createPipeline resolve "a>@>b" = .ok ⟨[liftStage f], [liftStage g]⟩
        ∧ invokePipe ⟨[liftStage f], [liftStage g]⟩ s o
            = .ok (.thunk (fun _ => g (f s o) []))) := by
  refine ⟨fun chain h => ?_, fun chain h => ?_, fun f g s o ha hb => ?_⟩
  · have hlen : (parseChain resolve chain).post.length > 1 := by
      rw [parseChain_post_length]; omega
    unfold createPipeline
    rw [if_pos hlen]
  · have hlen : ¬ (parseChain resolve chain).post.length > 1 := by
      rw [parseChain_post_length, h]; omega
    refine ⟨⟨(parseChain resolve chain).pre, (parseChain resolve chain).post⟩, ?_, ?_⟩
    · unfold createPipeline
      rw [if_neg hlen]
    · rw [parseChain_post_length, h]
  · constructor
    · have hsplit : splitGt "a>@>b" = ["a", "@", "b"] := by decide
      unfold createPipeline parseChain
      rw [hsplit]
      simp [chainStep, ha, hb]
    · simp [invokePipe, runTask, liftStage]

theorem createPipeline_post_validation_witness :
    1 < postTokens (splitGt "a>@>b>c") ∧
    createPipeline (fun _ => liftStage (fun s _ => s)) "a>@>b>c"
      = .error "Only one pipeline can be specified after forcing to text" ∧
    invokePipe ⟨[liftStage (fun s _ => s ++ "A")], [liftStage (fun s _ => s ++ "B")]⟩
        "x" []
      = .ok (.thunk (fun _ => "xAB")) := by
  refine ⟨by decide, ?_, ?_⟩
  · exact (createPipeline_post_validation (fun _ => liftStage (fun s _ => s))).1
      "a>@>b>c" (by decide)
  · exact ((createPipeline_post_validation
        (fun n => if n = "a" then liftStage (fun s _ => s ++ "A")
                  else liftStage (fun s _ => s ++ "B"))).2.2
      (fun s _ => s ++ "A") (fun s _ => s ++ "B") "x" [] rfl rfl).2

/-- C7, counterexample. The claim says the pipeline built from `"a>@"`
delivers a zero-argument thunk wrapping the string that the pipeline built
from `"a"` delivers directly.  In the code, `"a>@"` leaves `post` empty
(`@` only flips the cursor), so the `else` branch `next(null, text)` runs
and the final value is the plain text itself — not a thunk.  Concretely,
with stage `a` appending `"A"`, input `"x"` yields the plain text `"xA"`. -/
theorem chainTrailingAt_not_thunk :
    createPipeline (fun _ => liftStage (fun s _ => s ++ "A")) "a>@"
      = .ok ⟨[liftStage (fun s _ => s ++ "A")], []⟩ ∧
    invokePipe ⟨[liftStage (fun s _ => s ++ "A")], []⟩ "x" []
      = .ok (.text "xA") ∧
    FinalResult.isThunk (.text "xA") = false := by
  refine ⟨?_, rfl, rfl⟩
  have hsplit : splitGt "a>@" = ["a", "@"] := by decide
  unfold createPipeline parseChain
  rw [hsplit]
  simp [chainStep]

/-- C7, amended. Chains `"a"` and `"a>@"` compile to the *same* closure
(pre = the single stage, post = empty), hence produce identical results —
`"a>@"` performs no wrapping because no stage follows `@`.  When a post
stage *is* present, a plain-string post-stage result is wrapped in a
zero-argument thunk returning that string, and a function-shaped result is
passed through unchanged. -/
theorem chainTrailingAt_identity_and_post_wrapping (resolve : String → Stage) :
    createPipeline resolve "a" = .ok ⟨[resolve "a"], []⟩ ∧
    createPipeline resolve "a>@" = .ok ⟨[resolve "a"], []⟩ ∧
    (∀ (p : PipeClosure) (p0 : Stage) (rest : List Stage) (s text : String)
        (o : Opts),
      p.post = p0 :: rest → (runTask p.pre s o).2 = .ok text →
      (∀ r : String, p0 text [] = .str r →
        invokePipe p s o = .ok (.thunk (fun _ => r))) ∧
      (∀ f : Opts → String, p0 text [] = .fn f →
        invokePipe p s o = .ok (.fnPass f))) := by
  refine ⟨?_, ?_, ?_⟩
  · have hsplit : splitGt "a" = ["a"] := by decide
    unfold createPipeline parseChain
    rw [hsplit]
    simp [chainStep]
  · have hsplit : splitGt "a>@" = ["a", "@"] := by decide
    unfold createPipeline parseChain
    rw [hsplit]
    simp [chainStep]
  · intro p p0 rest s text o hpost hrun
    constructor
    · intro r hr
      simp only [invokePipe, hrun, hpost, hr]
    · intro f hf
      simp only [invokePipe, hrun, hpost, hf]

theorem chainTrailingAt_identity_and_post_wrapping_witness :
    invokePipe ⟨[liftStage (fun s _ => s ++ "A")], [liftStage (fun s _ => s ++ "B")]⟩
        "x" [] = .ok (.thunk (fun _ => "xAB")) ∧
    invokePipe ⟨[], [fun _ _ => .fn (fun _ => "F")]⟩ "x" []
      = .ok (.fnPass (fun _ => "F")) := by
  constructor
  · exact ((chainTrailingAt_identity_and_post_wrapping
        (fun _ => liftStage (fun s _ => s))).2.2
      ⟨[liftStage (fun s _ => s ++ "A")], [liftStage (fun s _ => s ++ "B")]⟩
      (liftStage (fun s _ => s ++ "B")) [] "x" "xA" [] rfl rfl).1 "xAB" rfl
  · exact ((chainTrailingAt_identity_and_post_wrapping
        (fun _ => liftStage (fun s _ => s))).2.2
      ⟨[], [fun _ _ => .fn (fun _ => "F")]⟩
      (fun _ _ => .fn (fun _ => "F")) [] "x" "x" [] rfl rfl).2
      (fun _ => "F") rfl

/-- Lemma: `runTask` destructively consumes the array handed to it: after a run
that completes without error, the `tasks` array has been emptied by the
repeated `shift` calls. -/
theorem runTask_consumes (ts : List Stage) (s : String) (o : Opts) (v : String)
    (h : (runTask ts s o).2 = .ok v) : (runTask ts s o).1 = [] := by
  induction ts generalizing s with
  | nil => rfl
  | cons t ts ih =>
      cases ht : t s o with
      | err e => simp [runTask, ht] at h
      | str res =>
          simp only [runTask, ht] at h ⊢
          exact ih res h
      | fn f =>
          simp only [runTask, ht] at h ⊢
          exact ih (f o) h

/-- C10. A compiled pipeline is reusable: an invocation leaves the
closure's captured stage lists unchanged (the runner is handed
`pipelines.pre.slice(0)`, a copy, which it destructively empties — last
conjunct — while the captured list survives), so a second invocation with
the same input performs the same computation and delivers the same result. -/
theorem pipeline_reusable (p : PipeClosure) (s : String) (o : Opts) :
    invokeStateful p s o = (invokePipe p s o, p) ∧
    (∀ (r1 : Except String FinalResult) (p1 : PipeClosure),
      invokeStateful p s o = (r1, p1) →
      p1 = p ∧ invokeStateful p1 s o = (r1, p1)) ∧
    (∀ v : String, (runTask p.pre s o).2 = .ok v → (runTask p.pre s o).1 = []) := by
  refine ⟨rfl, ?_, fun v h => runTask_consumes p.pre s o v h⟩
  intro r1 p1 h
  have hp : p1 = p := (congrArg Prod.snd h).symm
  have hr : r1 = invokePipe p s o := (congrArg Prod.fst h).symm
  subst hp; subst hr
  exact ⟨rfl, rfl⟩

theorem pipeline_reusable_witness :
    invokeStateful ⟨[liftStage (fun s _ => s ++ "!")], []⟩ "x" []
      = (.ok (.text "x!"), ⟨[liftStage (fun s _ => s ++ "!")], []⟩) ∧
    (runTask [liftStage (fun s _ => s ++ "!")] "x" []).1 = [] := by
  constructor
  · exact ((pipeline_reusable ⟨[liftStage (fun s _ => s ++ "!")], []⟩ "x" []).2.1
      (.ok (.text "x!")) ⟨[liftStage (fun s _ => s ++ "!")], []⟩ rfl).2
  · exact (pipeline_reusable ⟨[liftStage (fun s _ => s ++ "!")], []⟩ "x" []).2.2
      "x!" rfl

--
--  Association-list lemmas
--

theorem lookupKey_setKey_self {β : Type} (m : List (String × β)) (k : String) (v : β) :
    lookupKey (setKey m k v) k = some v := by
  induction m with
  | nil => simp [setKey, lookupKey]
  | cons kv rest ih =>
      obtain ⟨k', v'⟩ := kv
      by_cases h : k' = k
      · subst h; simp [setKey, lookupKey]
      · simp [setKey, lookupKey, h, ih]

theorem lookupKey_setKey_ne {β : Type} (m : List (String × β)) (k k2 : String) (v : β)
    (hne : k2 ≠ k) : lookupKey (setKey m k v) k2 = lookupKey m k2 := by
  induction m with
  | nil => simp [setKey, lookupKey, Ne.symm hne]
  | cons kv rest ih =>
      obtain ⟨k', v'⟩ := kv
      by_cases h : k' = k
      · subst h; simp [setKey, lookupKey, Ne.symm hne]
      · simp [setKey, lookupKey, h, ih]

theorem lookupKey_delKey_self {β : Type} (m : List (String × β)) (k : String) :
    lookupKey (delKey m k) k = none := by
  induction m with
  | nil => simp [delKey, lookupKey]
  | cons kv rest ih =>
      obtain ⟨k', v'⟩ := kv
      by_cases h : k' = k
      · simp [delKey, h, ih]
      · simp [delKey, lookupKey, h, ih]

theorem lookupKey_delKey_ne {β : Type} (m : List (String × β)) (k k2 : String)
    (hne : k2 ≠ k) : lookupKey (delKey m k) k2 = lookupKey m k2 := by
  induction m with
  | nil => simp [delKey]
  | cons kv rest ih =>
      obtain ⟨k', v'⟩ := kv
      by_cases h : k' = k
      · subst h
        simp [delKey, lookupKey, Ne.symm hne, ih]
      · simp [delKey, lookupKey, h, ih]

--
--  Registry lemmas
--

theorem getPipeline_mappings_eq (resolve : String → Stage) (chain : String)
    (r : Registry) (p : CachedPipe) (r' : Registry)
    (h : getPipeline resolve chain r = .ok (p, r')) : r'.mappings = r.mappings := by
  unfold getPipeline at h
  cases hl : lookupKey r.pipelines chain with
  | some q =>
      rw [hl] at h
      simp only [Except.ok.injEq, Prod.mk.injEq] at h
      rw [← h.2]
  | none =>
      rw [hl] at h
      cases hc : createPipeline resolve chain with
      | error e => rw [hc] at h; cases h
      | ok pc =>
          rw [hc] at h
          simp only [Except.ok.injEq, Prod.mk.injEq] at h
          rw [← h.2]

theorem getPipeline_pipelines_ne (resolve : String → Stage) (chain : String)
    (r : Registry) (p : CachedPipe) (r' : Registry)
    (h : getPipeline resolve chain r = .ok (p, r')) (k : String) (hk : k ≠ chain) :
    lookupKey r'.pipelines k = lookupKey r.pipelines k := by
  unfold getPipeline at h
  cases hl : lookupKey r.pipelines chain with
  | some q =>
      rw [hl] at h
      simp only [Except.ok.injEq, Prod.mk.injEq] at h
      rw [← h.2]
  | none =>
      rw [hl] at h
      cases hc : createPipeline resolve chain with
      | error e => rw [hc] at h; cases h
      | ok pc =>
          rw [hc] at h
          simp only [Except.ok.injEq, Prod.mk.injEq] at h
          rw [← h.2]
          exact lookupKey_setKey_ne r.pipelines chain k _ hk

theorem addPipeline_some_eq (resolve : String → Stage) (dflt : String → String)
    (ext chain : String) (r : Registry) (h1 : chain ≠ "*") (h2 : chain ≠ "") :
    addPipeline resolve dflt ext (some chain) r
      = match getPipeline resolve chain
            { r with mappings := setKey r.mappings ext chain } with
        | .error e => .error e
        | .ok (p, r2) =>
            .ok (some p, { r2 with pipelines := setKey r2.pipelines chain p }) := by
  unfold addPipeline
  rw [if_neg (by simpa using h1)]
  simp only [chainOrDefault, if_neg h2]

/-- C8. Pipelines are cached per chain-spec string: a `getPipeline` hit
returns the cached instance without recompiling or changing the registry;
adding a second extension with the same chain spec reuses the already-cached
instance (same identity, fresh-closure counter unchanged) and records the
chain under the new extension; and `addPipeline` touches no cache key other
than the chain-spec string itself (keys are chain specs, not extensions). -/
theorem pipeline_cache_shared (resolve : String → Stage) (dflt : String → String) :
    (∀ (chain : String) (r : Registry) (p : CachedPipe) (r1 : Registry),
      getPipeline resolve chain r = .ok (p, r1) →
      getPipeline resolve chain r1 = .ok (p, r1)) ∧
    (∀ (ext1 ext2 chain : String) (r : Registry) (p1 : CachedPipe) (r1 : Registry),
      chain ≠ "*" → chain ≠ "" →
      addPipeline resolve dflt ext1 (some chain) r = .ok (some p1, r1) →
      ∃ r2 : Registry,
        addPipeline resolve dflt ext2 (some chain) r1 = .ok (some p1, r2)
        ∧ r2.nextId = r1.nextId
        ∧ lookupKey r2.pipelines chain = some p1
        ∧ lookupKey r2.mappings ext2 = some chain) ∧
    (∀ (ext chain : String) (r : Registry) (p : CachedPipe) (r1 : Registry),
      chain ≠ "*" → chain ≠ "" →
      addPipeline resolve dflt ext (some chain) r = .ok (some p, r1) →
      ∀ k : String, k ≠ chain →
        lookupKey r1.pipelines k = lookupKey r.pipelines k) := by
  refine ⟨?_, ?_, ?_⟩
  · intro chain r p r1 h
    unfold getPipeline at h ⊢
    cases hl : lookupKey r.pipelines chain with
    | some q =>
        rw [hl] at h
        simp only [Except.ok.injEq, Prod.mk.injEq] at h
        obtain ⟨hp, hr⟩ := h
        subst hp; subst hr
        rw [hl]
    | none =>
        rw [hl] at h
        cases hc : createPipeline resolve chain with
        | error e => rw [hc] at h; cases h
        | ok pc =>
            rw [hc] at h
            simp only [Except.ok.injEq, Prod.mk.injEq] at h
            obtain ⟨hp, hr⟩ := h
            subst hp
            rw [← hr, lookupKey_setKey_self]
  · intro ext1 ext2 chain r p1 r1 h1 h2 h3
    rw [addPipeline_some_eq resolve dflt ext1 chain r h1 h2] at h3
    cases hg : getPipeline resolve chain
        { r with mappings := setKey r.mappings ext1 chain } with
    | error e => rw [hg] at h3; cases h3
    | ok pr =>
        obtain ⟨p0, r2⟩ := pr
        rw [hg] at h3
        simp only [Except.ok.injEq, Prod.mk.injEq, Option.some.injEq] at h3
        obtain ⟨hp, hr⟩ := h3
        subst hp
        have hpipe : lookupKey r1.pipelines chain = some p0 := by
          rw [← hr, lookupKey_setKey_self]
        rw [addPipeline_some_eq resolve dflt ext2 chain r1 h1 h2]
        have hcached :
            getPipeline resolve chain
                { r1 with mappings := setKey r1.mappings ext2 chain }
              = .ok (p0, { r1 with mappings := setKey r1.mappings ext2 chain }) := by
          unfold getPipeline
          rw [show ({ r1 with mappings := setKey r1.mappings ext2 chain } : Registry).pipelines
              = r1.pipelines from rfl, hpipe]
        rw [hcached]
        refine ⟨_, rfl, ?_, ?_, ?_⟩
        · rw [← hr]
        · exact lookupKey_setKey_self _ chain p0
        · exact lookupKey_setKey_self _ ext2 chain
  · intro ext chain r p r1 h1 h2 h3 k hk
    rw [addPipeline_some_eq resolve dflt ext chain r h1 h2] at h3
    cases hg : getPipeline resolve chain
        { r with mappings := setKey r.mappings ext chain } with
    | error e => rw [hg] at h3; cases h3
    | ok pr =>
        obtain ⟨p0, r2⟩ := pr
        rw [hg] at h3
        simp only [Except.ok.injEq, Prod.mk.injEq, Option.some.injEq] at h3
        obtain ⟨hp, hr⟩ := h3
        subst hp
        rw [← hr]
        have hmid := getPipeline_pipelines_ne resolve chain
          { r with mappings := setKey r.mappings ext chain } p0 r2 hg k hk
        calc lookupKey (setKey r2.pipelines chain p0) k
            = lookupKey r2.pipelines k := lookupKey_setKey_ne _ chain k p0 hk
          _ = lookupKey r.pipelines k := hmid

theorem pipeline_cache_shared_witness :
    getPipeline resolve0 "c" (Registry.mk [] [("c", ⟨7, ⟨[], []⟩⟩)] 5)
      = .ok (⟨7, ⟨[], []⟩⟩, Registry.mk [] [("c", ⟨7, ⟨[], []⟩⟩)] 5) ∧
    ∃ r2 : Registry,
      addPipeline resolve0 dflt0 "e2" (some "c")
          (Registry.mk [("e1", "c")]
            [("c", ⟨0, ⟨[liftStage (fun s _ => s)], []⟩⟩)] 1)
        = .ok (some ⟨0, ⟨[liftStage (fun s _ => s)], []⟩⟩, r2)
      ∧ r2.nextId = 1 := by
  constructor
  · exact (pipeline_cache_shared resolve0 dflt0).1 "c"
      (Registry.mk [] [("c", ⟨7, ⟨[], []⟩⟩)] 5) ⟨7, ⟨[], []⟩⟩
      (Registry.mk [] [("c", ⟨7, ⟨[], []⟩⟩)] 5) rfl
  · obtain ⟨r2, ha, hb, _, _⟩ := (pipeline_cache_shared resolve0 dflt0).2.1
      "e1" "e2" "c" (Registry.mk [] [] 0)
      ⟨0, ⟨[liftStage (fun s _ => s)], []⟩⟩
      (Registry.mk [("e1", "c")]
        [("c", ⟨0, ⟨[liftStage (fun s _ => s)], []⟩⟩)] 1)
      (by decide) (by decide) rfl
    exact ⟨r2, ha, hb⟩

/-- Lemma: `removePipeline` never takes its restore branch: the guard `core[ext]`
reads `this.mappings[ext]` (the constructor made them the same object), and
that entry was deleted on the preceding line.  So removal always just
deletes the chain's cached pipeline and the extension's mapping. -/
theorem removePipeline_never_restores (resolve : String → Stage)
    (dflt : String → String) (ext : String) (r : Registry) :
    removePipeline resolve dflt ext r
      = .ok { r with
          pipelines :=
            match lookupKey r.mappings ext with
            | some chain => delKey r.pipelines chain
            | none => r.pipelines,
          mappings := delKey r.mappings ext } := by
  unfold removePipeline
  simp only [lookupKey_delKey_self]

/-- C6. Claimed: after `remove("js")` the extension stays mapped
(`has("js")` true, mapping reverted to the built-in default chain).  The
code instead leaves `"js"` unmapped: on a freshly constructed instance,
`hasPipeline "js"` is `true` before the removal and `false` after it, and
the mapping is gone — the restore step `if (core[ext]) this.addPipeline(...)`
never fires because `core` and `this.mappings` are the same object
(`assign(core, options.mappings)`), so `core["js"]` was already deleted. -/
theorem removePipeline_js_unmapped :
    initPipemaker resolve0 dflt0
      = .ok (Registry.mk
          [("js", "javascript"), ("html", "html"), ("css", "css")]
          [("javascript", ⟨0, ⟨[idStage], []⟩⟩), ("html", ⟨1, ⟨[idStage], []⟩⟩),
            ("css", ⟨2, ⟨[idStage], []⟩⟩)] 3)
    ∧ hasPipeline (Registry.mk
          [("js", "javascript"), ("html", "html"), ("css", "css")]
          [("javascript", ⟨0, ⟨[idStage], []⟩⟩), ("html", ⟨1, ⟨[idStage], []⟩⟩),
            ("css", ⟨2, ⟨[idStage], []⟩⟩)] 3) "js" = true
    ∧ removePipeline resolve0 dflt0 "js"
        (Registry.mk
          [("js", "javascript"), ("html", "html"), ("css", "css")]
          [("javascript", ⟨0, ⟨[idStage], []⟩⟩), ("html", ⟨1, ⟨[idStage], []⟩⟩),
            ("css", ⟨2, ⟨[idStage], []⟩⟩)] 3)
      = .ok (Registry.mk [("html", "html"), ("css", "css")]
          [("html", ⟨1, ⟨[idStage], []⟩⟩), ("css", ⟨2, ⟨[idStage], []⟩⟩)] 3)
    ∧ hasPipeline (Registry.mk [("html", "html"), ("css", "css")]
          [("html", ⟨1, ⟨[idStage], []⟩⟩), ("css", ⟨2, ⟨[idStage], []⟩⟩)] 3)
        "js" = false
    ∧ lookupKey [("html", "html"), ("css", "css")] "js" = none
    ∧ hasPipeline (Registry.mk [("html", "html"), ("css", "css")]
          [("html", ⟨1, ⟨[idStage], []⟩⟩), ("css", ⟨2, ⟨[idStage], []⟩⟩)] 3)
        "html" = true :=
  ⟨rfl, rfl, rfl, rfl, rfl, rfl⟩

/-- C9, counterexample. Claimed: removing one of two extensions mapped
to the same chain leaves the shared cached pipeline in place for the other.
In the code `delete this.pipelines[this.mappings[ext]]` is unconditional:
after `addPipeline("e1","c")`, `addPipeline("e2","c")` (which share the one
cached instance) and `removePipeline("e1")`, extension `"e2"` still maps to
chain `"c"` but the cached pipeline for `"c"` is gone. -/
theorem removePipeline_drops_shared_cache :
    addPipeline resolve0 dflt0 "e1" (some "c") (Registry.mk [] [] 0)
      = .ok (some ⟨0, ⟨[idStage], []⟩⟩,
          Registry.mk [("e1", "c")] [("c", ⟨0, ⟨[idStage], []⟩⟩)] 1)
    ∧ addPipeline resolve0 dflt0 "e2" (some "c")
        (Registry.mk [("e1", "c")] [("c", ⟨0, ⟨[idStage], []⟩⟩)] 1)
      = .ok (some ⟨0, ⟨[idStage], []⟩⟩,
          Registry.mk [("e1", "c"), ("e2", "c")]
            [("c", ⟨0, ⟨[idStage], []⟩⟩)] 1)
    ∧ removePipeline resolve0 dflt0 "e1"
        (Registry.mk [("e1", "c"), ("e2", "c")]
          [("c", ⟨0, ⟨[idStage], []⟩⟩)] 1)
      = .ok (Registry.mk [("e2", "c")] [] 1)
    ∧ lookupKey [("e2", "c")] "e2" = some "c"
    ∧ lookupKey ([] : List (String × CachedPipe)) "c" = none :=
  ⟨rfl, rfl, rfl, rfl, rfl⟩

/-- C9, amended. `remove(ext)` deletes the extension's mapping and
*unconditionally* drops the cached compiled pipeline for that extension's
chain name — even when another extension still references the same chain —
while leaving every other mapping and every other chain's cache entry
untouched; removing an unmapped extension leaves the cache unchanged. -/
theorem removePipeline_effect (resolve : String → Stage)
    (dflt : String → String) (ext : String) (r : Registry) :
    ∃ r' : Registry,
      removePipeline resolve dflt ext r = .ok r'
      ∧ lookupKey r'.mappings ext = none
      ∧ (∀ chain : String, lookupKey r.mappings ext = some chain →
          lookupKey r'.pipelines chain = none)
      ∧ (∀ e : String, e ≠ ext →
          lookupKey r'.mappings e = lookupKey r.mappings e)
      ∧ (∀ chain k : String, lookupKey r.mappings ext = some chain →
          k ≠ chain → lookupKey r'.pipelines k = lookupKey r.pipelines k)
      ∧ (lookupKey r.mappings ext = none → r'.pipelines = r.pipelines) := by
  refine ⟨_, removePipeline_never_restores resolve dflt ext r, ?_, ?_, ?_, ?_, ?_⟩
  · exact lookupKey_delKey_self r.mappings ext
  · intro chain hc
    simp only [hc]
    exact lookupKey_delKey_self r.pipelines chain
  · intro e he
    exact lookupKey_delKey_ne r.mappings ext e he
  · intro chain k hc hk
    simp only [hc]
    exact lookupKey_delKey_ne r.pipelines chain k hk
  · intro hc
    simp only [hc]

theorem removePipeline_effect_witness :
    ∃ r' : Registry,
      removePipeline resolve0 dflt0 "e1"
          (Registry.mk [("e1", "c"), ("e2", "c")]
            [("c", ⟨0, ⟨[], []⟩⟩), ("d", ⟨1, ⟨[], []⟩⟩)] 2)
        = .ok r'
      ∧ lookupKey r'.mappings "e1" = none
      ∧ lookupKey r'.pipelines "c" = none
      ∧ lookupKey r'.mappings "e2" = some "c"
      ∧ lookupKey r'.pipelines "d" = some ⟨1, ⟨[], []⟩⟩ := by
  obtain ⟨r', h1, h2, h3, h4, h5, _⟩ := removePipeline_effect resolve0 dflt0 "e1"
    (Registry.mk [("e1", "c"), ("e2", "c")]
      [("c", ⟨0, ⟨[], []⟩⟩), ("d", ⟨1, ⟨[], []⟩⟩)] 2)
  refine ⟨r', h1, h2, h3 "c" rfl, ?_, ?_⟩
  · rw [h4 "e2" (by decide)]; rfl
  · rw [h5 "c" "d" rfl (by decide)]; rfl

--
--  WildcardBlockParser claims
--

/-- C4. Claimed: a compile error in any block — nested children included
— aborts the whole wildcard compilation and reaches the top-level callback
exactly once.  The code's child-block callback (src/index.js:206-211)
ignores `err`, unlike the sibling path (line 215) which checks it: on the
document `">> foo\n  >> bad\n    content\nafter"`, where compiling the
nested `"bad"` block fails with `"boom"`, the nested error is swallowed —
the marker line is overwritten with `undefined`, `undefined` joins the
parent's member lines as `""`, and the top-level callback receives a
*success* `"\n    content\nafter"` instead of the error. -/
theorem compileBlock_swallows_child_error :
    ceC4 "bad" "    content" = .error "boom" ∧
    cbRun ceC4 32 [some ">> foo", some "  >> bad", some "    content", some "after"]
        (.start 1)
      = some (.err "boom",
          [some ">> foo", some "  >> bad", some "    content", some "after"]) ∧
    compileWildcard ceC4 32 ">> foo\n  >> bad\n    content\nafter"
      = some (.ok "\n    content\nafter" 4,
          [some ">> foo", none, some "    content", some "after"]) := by
  refine ⟨rfl, by decide, by decide⟩

/-- C5, counterexample. Claimed: the compiled result delivered for a
closing block has *every* line padded to at least the block's `base` indent.
For the inner block of `">> outer\n  >> inner\n    xx"` (marker indent 2,
so `base = 2`) whose compiler output is `"    a\nb"`, `pad` sees a leading
`\s` run of 4 ≥ 2 and returns the string unchanged: the block delivers
`"    a\nb"`, whose second line `"b"` has 0 < 2 leading whitespace
characters. -/
theorem pad_not_per_line :
    findMarker "  >> inner" = some ("  ", "inner") ∧
    cbRun ceC5 32 [some ">> outer", some "  >> inner", some "    xx"] (.start 1)
      = some (.ok "    a\nb" 2,
          [some ">> outer", some "  >> inner", some "    xx"]) ∧
    splitLines "    a\nb" = ["    a", "b"] ∧
    leadingWsLen "b" = 0 ∧
    compileWildcard ceC5 32 ">> outer\n  >> inner\n    xx"
      = some (.ok "    a\nb" 2, [some ">> outer", some "    a\nb"]) := by
  refine ⟨by decide, by decide, by decide, rfl, by decide⟩

/-- C5, amended. When a block closes, the result delivered is
`pad(compiled, base)`, and `pad` pads based only on the leading `\s` run of
the *whole* compiled string: if that run is shorter than `base`, a uniform
run of `base - run` spaces is prepended to every line (raising each line's
leading-whitespace count by exactly that amount — so the padding guarantee
is per-string, not per-line); otherwise the string is returned unchanged. -/
theorem pad_effect :
    (∀ (ce : String → String → Except String String) (ext : String)
        (base : Nat) (acc : List (Option String)) (lineNo start : Nat)
        (compiled : String),
      ce ext (joinNl (acc.map (fun x => x.getD ""))) = .ok compiled →
      completeFn ce ext base acc lineNo start
        = .ok (pad compiled base) (lineNo - start)) ∧
    (∀ (s : String) (m : Nat),
      (leadingWsLen s < m →
        pad s m
          = joinNl ((splitLines s).map
              (fun l => mkSpaces (m - leadingWsLen s) ++ l)))
      ∧ (m ≤ leadingWsLen s → pad s m = s)) ∧
    (∀ (k : Nat) (l : String),
      leadingWsLen (mkSpaces k ++ l) = k + leadingWsLen l) := by
  refine ⟨?_, ?_, ?_⟩
  · intro ce ext base acc lineNo start compiled h
    unfold completeFn
    rw [h]
  · intro s m
    constructor
    · intro h
      unfold pad
      rw [if_pos h]
    · intro h
      unfold pad
      rw [if_neg (by omega)]
  · intro k l
    obtain ⟨ld⟩ := l
    show ((String.mk (List.replicate k ' ') ++ String.mk ld).data.takeWhile
        isJsSpace).length = k + (ld.takeWhile isJsSpace).length
    have hdata : (String.mk (List.replicate k ' ') ++ String.mk ld).data
        = List.replicate k ' ' ++ ld := rfl
    rw [hdata]
    induction k with
    | zero => simp
    | succ n ih =>
        simp [List.replicate_succ, List.takeWhile_cons,
          show isJsSpace ' ' = true from rfl, ih]
        omega

theorem pad_effect_witness :
    completeFn ceC5 "inner" 2 [some "    xx"] 3 1 = .ok "    a\nb" 2 ∧
    pad " a\nb" 3 = "   a\n  b" ∧
    leadingWsLen (mkSpaces 2 ++ "b") = 2 := by
  refine ⟨?_, ?_, ?_⟩
  · exact pad_effect.1 ceC5 "inner" 2 [some "    xx"] 3 1 "    a\nb" rfl
  · rw [(pad_effect.2.1 " a\nb" 3).1 (by decide)]
    decide
  · rw [pad_effect.2.2 2 "b"]
    decide

end Pipemaker

